/-
Verification of the DMX channel-state gateway core of hass-dmx
(src/custom_components/dmx/light.py, src/artnet.py).

The embedding models the channel buffer as `List ℤ`, Python list indexing
(including negative indices) as partial operations returning `Option`,
Python `round` as round-half-to-even over ℚ, and Python `int()` on a float
as truncation toward zero.
-/
import Mathlib

set_option maxRecDepth 100000

namespace DMX

/-- Python 3 `round` on an exact rational: round half to even (banker's
rounding).  Returns the nearest integer; on ties (fractional part exactly
1/2) returns the even neighbour. -/
def pyRound (q : ℚ) : ℤ :=
  let f : ℤ := ⌊q⌋
  let r : ℚ := q - f
  if r < 1/2 then f
  else if 1/2 < r then f + 1
  else if f % 2 = 0 then f else f + 1

/-- Python `int()` applied to a real number: truncation toward zero. -/
def pyInt (q : ℚ) : ℤ :=
  if q < 0 then -⌊-q⌋ else ⌊q⌋

/-- Python sequence indexing: an index `i` with `0 ≤ i < n` is used as is,
a negative index `-n ≤ i < 0` addresses position `n + i`, and anything
else raises `IndexError` (here: `none`). -/
def pyIndex (n : ℕ) (i : ℤ) : Option ℕ :=
  if 0 ≤ i ∧ i < (n : ℤ) then some i.toNat
  else if -(n : ℤ) ≤ i ∧ i < 0 then some ((n : ℤ) + i).toNat
  else none

/-- Python `lst[i] = v` on a list of length `n`. -/
def pySet (l : List ℤ) (i : ℤ) (v : ℤ) : Option (List ℤ) :=
  (pyIndex l.length i).map (fun j => l.set j v)

/-- Python `lst[i]`. -/
def pyGet (l : List ℤ) (i : ℤ) : Option ℤ :=
  (pyIndex l.length i).bind (fun j => l[j]?)

/-- `DMXGateway.__init__`: the channel count is rounded up to even. -/
def evenChannels (n : ℕ) : ℕ :=
  if n % 2 ≠ 0 then n + 1 else n

/-- `DMXGateway.__init__`: the channel buffer starts as
`[default_level] * number_of_channels` (after even rounding). -/
def initChannels (defaultLevel : ℤ) (n : ℕ) : List ℤ :=
  List.replicate (evenChannels n) defaultLevel

/-- The `value` argument of `set_channels` / `set_channels_async` is either
a scalar or a tuple/list of values. -/
inductive DMXValue where
  | scalar (v : ℤ)
  | vector (vs : List ℤ)
deriving DecidableEq

/-- `value_arr = [value]` unless `value` is a tuple or list. -/
def valueArr : DMXValue → List ℤ
  | .scalar v => [v]
  | .vector vs => vs

/-- `value_arr[min(x, len(value_arr) - 1)]`: the target value for the
`x`-th channel of the group.  On an empty vector Python computes
`value_arr[-1]`, an `IndexError`. -/
def targetFor (va : List ℤ) (x : ℕ) : Option ℤ :=
  pyGet va (min (x : ℤ) ((va.length : ℤ) - 1))

/-- The per-channel loop of `DMXGateway.set_channels`:
`self._channels[channel - 1] = int(default_value)` for each
`x, channel in enumerate(channels)` (`x` is the running enumeration
counter; `int()` on a value that is already an integer is the identity). -/
def setChannelsLoop (va : List ℤ) (x : ℕ) : List ℤ → List ℤ → Option (List ℤ)
  | [], buf => some buf
  | c :: rest, buf => do
      let t ← targetFor va x
      let buf' ← pySet buf (c - 1) t
      setChannelsLoop va (x + 1) rest buf'

/-- `DMXGateway.set_channels` (light.py:647-660), restricted to its effect
on the channel buffer (the `_last_command_ids` update and the optional
`send()` do not touch the buffer). -/
def set_channels (buf : List ℤ) (channels : List ℤ) (value : DMXValue) :
    Option (List ℤ) :=
  setChannelsLoop (valueArr value) 0 channels buf

/-- `DMXGateway.get_channel_level` (light.py:706-710):
`return self._channels[int(channel) - 1]`. -/
def get_channel_level (buf : List ℤ) (channel : ℤ) : Option ℤ :=
  pyGet buf (channel - 1)

/-- `number_of_frames = max(int(transition * fps), 1)` (light.py:671). -/
def numberOfFrames (transition fps : ℚ) : ℕ :=
  (max (pyInt (transition * fps)) 1).toNat

/-- The value written to `channel` (the `x`-th channel of the group) at
frame `i` of a transition (light.py:682-687):
`increment = (target_value - original_values[channel - 1]) / number_of_frames`
and `next_value = int(round(original_values[channel - 1] + increment * i))`.
The source computes this in floating point; the embedding computes the same
expression in exact rational arithmetic. -/
def frameValue (o t : ℤ) (frames i : ℕ) : ℤ :=
  pyRound ((o : ℚ) + ((t : ℚ) - (o : ℚ)) / (frames : ℚ) * (i : ℚ))

/-- The inner `for x, channel in enumerate(channels)` loop of frame `i` of
`set_channels_async` (light.py:681-693), with `x` the running enumeration
counter.  The source writes `self._channels[channel - 1] = next_value`
only when the value differs from the current one; the resulting buffer is
the same either way, so the write is unconditional here. -/
def applyFrame (orig va : List ℤ) (frames i x : ℕ) :
    List ℤ → List ℤ → Option (List ℤ)
  | [], buf => some buf
  | c :: rest, buf => do
      let t ← targetFor va x
      let o ← pyGet orig (c - 1)
      let buf' ← pySet buf (c - 1) (frameValue o t frames i)
      applyFrame orig va frames i (x + 1) rest buf'

/-- The outer `for i in range(1, number_of_frames + 1)` loop of
`set_channels_async` without supersession: run the remaining `k` frames,
so that the frame index is `frames - k + 1, …, frames`. -/
def runFrames (orig va : List ℤ) (chs : List ℤ) (frames : ℕ) :
    ℕ → List ℤ → Option (List ℤ)
  | 0, buf => some buf
  | k + 1, buf => do
      let buf' ← applyFrame orig va frames (frames - k) 0 chs buf
      runFrames orig va chs frames k buf'

/-- `DMXGateway.set_channels_async` (light.py:662-704) restricted to its
effect on the channel buffer, in the run where no newer command supersedes
it (the per-frame `_last_command_ids` check never fires):
`original_values = self._channels[:]`, then the full frame loop. -/
def set_channels_async (buf : List ℤ) (channels : List ℤ) (value : DMXValue)
    (transition fps : ℚ) : Option (List ℤ) :=
  let frames := numberOfFrames transition fps
  runFrames buf (valueArr value) channels frames frames buf

/-- The list of buffer states after each successive frame of the loop of
`set_channels_async` (the observable intermediate states of the
transition). -/
def frameTrace (orig va : List ℤ) (chs : List ℤ) (frames : ℕ) :
    ℕ → List ℤ → Option (List (List ℤ))
  | 0, _ => some []
  | k + 1, buf => do
      let buf' ← applyFrame orig va frames (frames - k) 0 chs buf
      let rest ← frameTrace orig va chs frames k buf'
      pure (buf' :: rest)

/-- Frames `i, i + 1, …, i + s - 1` of the loop of `set_channels_async`,
all with increment denominator `frames`: the states a transition passes
through when it stops after a prefix of its frames. -/
def runSteps (orig va : List ℤ) (chs : List ℤ) (frames : ℕ) :
    ℕ → ℕ → List ℤ → Option (List ℤ)
  | _, 0, buf => some buf
  | i, s + 1, buf => do
      let buf' ← applyFrame orig va frames i 0 chs buf
      runSteps orig va chs frames (i + 1) s buf'

/-- `set_channels_async` with the per-frame supersession check
(light.py:701-704): after frame `i` (and its sleep), the loop breaks when
`_last_command_ids[channels[0]]` no longer equals the id captured at entry.
`ids i` is the value of `_last_command_ids[channels[0]]` observed at the
check following frame `i`, and `myId` the id this call wrote at entry. -/
def runFramesSup (orig va : List ℤ) (chs : List ℤ) (frames : ℕ)
    (ids : ℕ → ℕ) (myId : ℕ) : ℕ → List ℤ → Option (List ℤ)
  | 0, buf => some buf
  | k + 1, buf => do
      let i := frames - k
      let buf' ← applyFrame orig va frames i 0 chs buf
      if ids i ≠ myId then some buf'
      else runFramesSup orig va chs frames ids myId k buf'

/-- `DMXGateway.set_channel` (artnet.py:338-352): validates
`1 <= channel <= self._number_of_channels and 0 <= value <= 255`; inside
the guard it writes `self._channels[int(channel) - 1] = value` (the index
is then in range) and returns `True`, otherwise it returns `False` without
touching the buffer. -/
def set_channel (buf : List ℤ) (channel : ℤ) (value : ℤ) : Bool × List ℤ :=
  if 1 ≤ channel ∧ channel ≤ (buf.length : ℤ) ∧ 0 ≤ value ∧ value ≤ 255 then
    (true, buf.set (channel - 1).toNat value)
  else
    (false, buf)

/-- One buffer-mutating gateway operation: a synchronous `set_channels`
call or a full (unsuperseded) `set_channels_async` transition. -/
inductive DMXOp where
  | set (channels : List ℤ) (value : DMXValue)
  | fade (channels : List ℤ) (value : DMXValue) (transition fps : ℚ)

/-- The target values an operation writes toward. -/
def opValues : DMXOp → List ℤ
  | .set _ v => valueArr v
  | .fade _ v _ _ => valueArr v

/-- Run one operation from `buf`, returning the list of successive buffer
states it produces (one for a `set`, one per frame for a `fade`) together
with the final buffer. -/
def opRun (buf : List ℤ) : DMXOp → Option (List (List ℤ) × List ℤ)
  | .set chs v => do
      let b ← set_channels buf chs v
      pure ([b], b)
  | .fade chs v t f => do
      let frames := numberOfFrames t f
      let tr ← frameTrace buf (valueArr v) chs frames frames buf
      pure (tr, tr.getLastD buf)

/-- Run a sequence of operations from `buf`, collecting every intermediate
buffer state. -/
def runOps : List DMXOp → List ℤ → Option (List (List ℤ))
  | [], _ => some []
  | op :: rest, buf => do
      let p ← opRun buf op
      let trs ← runOps rest p.2
      pure (p.1 ++ trs)

/-! ### Protocol encoders -/

/-- `map(ord, s)` for an ASCII string. -/
def ords (s : String) : List ℕ :=
  s.toList.map Char.toNat

/-- `pack(">h", n)` / `pack(">H", n)`: two big-endian bytes.  Used here
only with `0 ≤ n ≤ 0xFFFF` (beyond that the Python call raises). -/
def packBE16 (n : ℕ) : List ℕ :=
  [n / 256 % 256, n % 256]

/-- `bytearray.extend` applied to a list of Python ints: succeeds with the
corresponding bytes only when every value is in `[0, 255]`, otherwise
raises `ValueError`. -/
def byteList (chs : List ℤ) : Option (List ℕ) :=
  if ∀ v ∈ chs, 0 ≤ v ∧ v ≤ 255 then some (chs.map Int.toNat) else none

/-- `pack("512B", *channels)` (light.py:778): requires exactly 512
arguments, each in `[0, 255]`; otherwise raises `struct.error`.  It never
pads or truncates. -/
def pack512B (chs : List ℤ) : Option (List ℕ) :=
  if chs.length = 512 ∧ ∀ v ∈ chs, 0 ≤ v ∧ v ≤ 255 then some (chs.map Int.toNat)
  else none

/-- `pack(">B", n)`: one byte, raising unless `0 ≤ n ≤ 255`. -/
def packB (n : ℕ) : Option (List ℕ) :=
  if n ≤ 255 then some [n] else none

/-- The fixed Art-Net header template built in `ArtNetGateway.__init__`
(light.py:732-740); `n` is the (even-rounded) channel count. -/
def artnetBasePacket (univ n : ℕ) : List ℕ :=
  ords "Art-Net" ++ [0x00]
    ++ [0x00, 0x50]
    ++ [0x00, 0x0E]
    ++ [0x00, 0x00]
    ++ [univ, 0x00]
    ++ packBE16 n

/-- The state of an `ArtNetGateway`: header template and channel buffer
(host, port and socket never affect the bytes produced). -/
structure ArtNetGateway where
  base_packet : List ℕ
  channels : List ℤ
deriving DecidableEq

/-- `ArtNetGateway.__init__` (light.py:726-740). -/
def ArtNetGateway.init (univ n : ℕ) (defaultLevel : ℤ) : ArtNetGateway :=
  { base_packet := artnetBasePacket univ (evenChannels n)
    channels := initChannels defaultLevel n }

/-- `ArtNetGateway.send` (light.py:742-750): copy the base packet, extend
it with the channel array, transmit.  Returns the datagram together with
the post-send gateway state. -/
def ArtNetGateway.send (g : ArtNetGateway) : Option (List ℕ × ArtNetGateway) := do
  let payload ← byteList g.channels
  pure (g.base_packet ++ payload, g)

/-- The fixed KiNet header template built in `KiNetGateway.__init__`
(light.py:764-770): `pack(">IHH", 0x0401DC4A, 0x0100, 0x0101)` then
`pack(">IBBHI", 0, 0, 0, 0, 0xFFFFFFFF)` then `pack("B", universe)`. -/
def kinetBasePacket (univ : ℕ) : List ℕ :=
  [0x04, 0x01, 0xDC, 0x4A, 0x01, 0x00, 0x01, 0x01]
    ++ [0x00, 0x00, 0x00, 0x00, 0x00, 0x00, 0x00, 0x00, 0xFF, 0xFF, 0xFF, 0xFF]
    ++ [univ]

/-- The state of a `KiNetGateway`. -/
structure KiNetGateway where
  base_packet : List ℕ
  channels : List ℤ
deriving DecidableEq

/-- `KiNetGateway.__init__` (light.py:758-770). -/
def KiNetGateway.init (univ n : ℕ) (defaultLevel : ℤ) : KiNetGateway :=
  { base_packet := kinetBasePacket univ
    channels := initChannels defaultLevel n }

/-- `KiNetGateway.send` (light.py:772-780): copy the base packet, extend
it with `pack("512B", *self._channels)`, transmit. -/
def KiNetGateway.send (g : KiNetGateway) : Option (List ℕ × KiNetGateway) := do
  let payload ← pack512B g.channels
  pure (g.base_packet ++ payload, g)

/-- The fixed sACN packet template built in `sACNGateway.__init__`
(light.py:793-811).  Index 111 is the sequence placeholder that `send`
overwrites. -/
def sacnBasePacket (univ : ℕ) : List ℕ :=
  [0x00, 0x01, 0x00, 0x00]
    ++ ords "ASC-E1.17"
    ++ [0x00, 0x00, 0x00, 0x72, 0x57]
    ++ [0x00, 0x00, 0x00, 0x04]
    ++ ords "ThisIsMyCIDxxxxx"
    ++ [0x72, 0x57]
    ++ [0x00, 0x00, 0x00, 0x02]
    ++ ords "-HA-DMX-Over-IP--HA-DMX-Over-IP--HA-DMX-Over-IP--HA-DMX-Over-IP-"
    ++ [0xFF]
    ++ [0x00, 0x32]
    ++ [0x00]
    ++ [0x00]
    ++ packBE16 univ
    ++ [0x72, 0x0d, 0x02, 0xa1, 0x00, 0x00, 0x00, 0x01, 0x02, 0x01, 0x00]

/-- The state of a `sACNGateway`: the only mutable session field besides
the buffer is the sequence counter. -/
structure SACNGateway where
  base_packet : List ℕ
  channels : List ℤ
  sequence : ℕ
deriving DecidableEq

/-- `sACNGateway.__init__` (light.py:787-812): builds the template and
sets `self.sequence = 0`. -/
def SACNGateway.init (univ n : ℕ) (defaultLevel : ℤ) : SACNGateway :=
  { base_packet := sacnBasePacket univ
    channels := initChannels defaultLevel n
    sequence := 0 }

/-- `sACNGateway.send` (light.py:814-827): the datagram is
`base_packet[0:111]` + `pack(">B", self.sequence)` + `base_packet[112:]` +
the channel array; the stored sequence is incremented afterwards and reset
to 1 when it reaches 200. -/
def SACNGateway.send (g : SACNGateway) : Option (List ℕ × SACNGateway) := do
  let seqByte ← packB g.sequence
  let payload ← byteList g.channels
  pure (g.base_packet.take 111 ++ seqByte ++ g.base_packet.drop 112 ++ payload,
    { g with sequence :=
        if g.sequence + 1 = 200 then 1 else g.sequence + 1 })

/-- The gateway state after `n` successive sends. -/
def sacnIterate (g : SACNGateway) : ℕ → Option SACNGateway
  | 0 => some g
  | n + 1 => do
      let g2 ← sacnIterate g n
      let r ← g2.send
      pure r.2

/-- The sequence byte (packet index 111) of the datagram emitted by the
`n`-th send (`n ≥ 1`) of a session starting from `g`. -/
def sacnEmitted (g : SACNGateway) (n : ℕ) : Option ℕ := do
  let g2 ← sacnIterate g (n - 1)
  let r ← g2.send
  r.1[111]?

/-- Entry-wise invariant of a channel buffer: fixed length `n` and every
value an unsigned byte. -/
def BufInv (n : ℕ) (b : List ℤ) : Prop :=
  b.length = n ∧ ∀ v ∈ b, 0 ≤ v ∧ v ≤ 255

/-- The stored sequence counter after `k` sends: `0` initially, then
incremented per send with the `200 → 1` reset of light.py:821-823. -/
def sacnSeqAfter : ℕ → ℕ
  | 0 => 0
  | k + 1 => if sacnSeqAfter k + 1 = 200 then 1 else sacnSeqAfter k + 1

/-! ### Lemmas on the Python-semantics primitives -/

theorem pyRound_intCast (z : ℤ) : pyRound (z : ℚ) = z := by
  simp only [pyRound, Int.floor_intCast, sub_self]
  norm_num

theorem pyRound_cases (q : ℚ) : pyRound q = ⌊q⌋ ∨ pyRound q = ⌊q⌋ + 1 := by
  simp only [pyRound]
  split_ifs <;> simp

theorem le_pyRound {a : ℤ} {q : ℚ} (h : (a : ℚ) ≤ q) : a ≤ pyRound q := by
  have hf : a ≤ ⌊q⌋ := Int.le_floor.mpr h
  rcases pyRound_cases q with h1 | h1 <;> omega

theorem pyRound_le {b : ℤ} {q : ℚ} (h : q ≤ (b : ℚ)) : pyRound q ≤ b := by
  rcases eq_or_lt_of_le h with rfl | hlt
  · have h0 : (⌊(b : ℚ)⌋ : ℤ) = b := Int.floor_intCast b
    unfold pyRound
    simp only [h0, sub_self]
    norm_num
  · have hf : ⌊q⌋ < b := Int.floor_lt.mpr hlt
    rcases pyRound_cases q with h1 | h1 <;> omega

theorem pyInt_of_nonneg {q : ℚ} (h : 0 ≤ q) : pyInt q = ⌊q⌋ := by
  simp [pyInt, not_lt.mpr h]

theorem pyIndex_of_lt {n : ℕ} {i : ℤ} (h0 : 0 ≤ i) (h1 : i < (n : ℤ)) :
    pyIndex n i = some i.toNat := by
  simp [pyIndex, h0, h1]

theorem pySet_some_length {l l2 : List ℤ} {i v : ℤ}
    (h : pySet l i v = some l2) : l2.length = l.length := by
  unfold pySet at h
  rcases Option.map_eq_some'.mp h with ⟨j, hj, hl⟩
  simp [← hl]

theorem pySet_mem {l l2 : List ℤ} {i v w : ℤ}
    (h : pySet l i v = some l2) (hw : w ∈ l2) : w ∈ l ∨ w = v := by
  unfold pySet at h
  rcases Option.map_eq_some'.mp h with ⟨j, hj, hl⟩
  subst hl
  exact List.mem_or_eq_of_mem_set hw

theorem pyGet_mem {l : List ℤ} {i v : ℤ} (h : pyGet l i = some v) : v ∈ l := by
  unfold pyGet at h
  rcases Option.bind_eq_some.mp h with ⟨j, _, hl⟩
  exact List.getElem?_mem hl

/-- For a 1-based channel index `c` in `[1, length]`, the Python write at
`c - 1` succeeds and is an ordinary `List.set`. -/
theorem pySet_channel {l : List ℤ} {c : ℤ} (v : ℤ)
    (h1 : 1 ≤ c) (h2 : c ≤ (l.length : ℤ)) :
    pySet l (c - 1) v = some (l.set (c - 1).toNat v) := by
  unfold pySet
  rw [pyIndex_of_lt (by omega) (by omega)]
  rfl

/-- For a 1-based channel index `c` in `[1, length]`, the Python read at
`c - 1` succeeds. -/
theorem pyGet_channel {l : List ℤ} {c : ℤ}
    (h1 : 1 ≤ c) (h2 : c ≤ (l.length : ℤ)) :
    pyGet l (c - 1) = some (l.getD (c - 1).toNat 0) := by
  unfold pyGet
  rw [pyIndex_of_lt (by omega) (by omega), Option.some_bind,
    List.getD_eq_getElem l 0 (by omega), List.getElem?_eq_getElem (by omega)]

theorem targetFor_of_ne_nil {va : List ℤ} (hva : va ≠ []) (x : ℕ) :
    targetFor va x = some (va.getD (min x (va.length - 1)) 0) := by
  have hlen : 1 ≤ va.length := List.length_pos.mpr hva
  unfold targetFor pyGet
  have h0 : (0 : ℤ) ≤ min (x : ℤ) ((va.length : ℤ) - 1) := by
    rcases le_total (x : ℤ) ((va.length : ℤ) - 1) with h | h <;> omega
  have h1 : min (x : ℤ) ((va.length : ℤ) - 1) < (va.length : ℤ) := by
    have := min_le_right (x : ℤ) ((va.length : ℤ) - 1)
    omega
  rw [pyIndex_of_lt h0 h1]
  have htn : (min (x : ℤ) ((va.length : ℤ) - 1)).toNat = min x (va.length - 1) := by
    rcases le_total (x : ℤ) ((va.length : ℤ) - 1) with h | h
    · rw [min_eq_left h]
      have hx : x ≤ va.length - 1 := by omega
      rw [min_eq_left hx]
      omega
    · rw [min_eq_right h]
      have hx : va.length - 1 ≤ x := by omega
      rw [min_eq_right hx]
      omega
  have hlt : min x (va.length - 1) < va.length := by omega
  rw [Option.some_bind, htn, List.getD_eq_getElem va 0 hlt,
    List.getElem?_eq_getElem hlt]

theorem targetFor_mem {va : List ℤ} {x : ℕ} {t : ℤ}
    (h : targetFor va x = some t) : t ∈ va :=
  pyGet_mem h

theorem numberOfFrames_pos (t f : ℚ) : 1 ≤ numberOfFrames t f := by
  unfold numberOfFrames
  have h : (1 : ℤ) ≤ max (pyInt (t * f)) 1 := le_max_right _ _
  omega

/-- With `D ≥ 0` and `F > 0`, the frame count is `max(floor(D * F), 1)`. -/
theorem numberOfFrames_eq {t f : ℚ} (ht : 0 ≤ t) (hf : 0 < f) :
    numberOfFrames t f = max (⌊t * f⌋).toNat 1 := by
  unfold numberOfFrames
  rw [pyInt_of_nonneg (mul_nonneg ht hf.le)]
  rcases le_total (⌊t * f⌋) 1 with h | h
  · rw [max_eq_right h]
    have h2 : (⌊t * f⌋).toNat ≤ 1 := by omega
    simp [max_eq_right h2]
  · rw [max_eq_left h]
    have h2 : 1 ≤ (⌊t * f⌋).toNat := by omega
    rw [max_eq_left h2]

/-- At the last frame `i = frames` the interpolation lands exactly on the
target, because `(t - o) / frames * frames = t - o` in exact arithmetic. -/
theorem frameValue_last (o t : ℤ) {frames : ℕ} (hf : frames ≠ 0) :
    frameValue o t frames frames = t := by
  unfold frameValue
  have hq : ((frames : ℚ)) ≠ 0 := Nat.cast_ne_zero.mpr hf
  have hsimp : (o : ℚ) + ((t : ℚ) - (o : ℚ)) / (frames : ℚ) * (frames : ℚ) = (t : ℚ) := by
    field_simp
  rw [hsimp, pyRound_intCast]

/-- Intermediate frames stay within `[0, 255]` when both endpoint values
do: the interpolant is a convex combination of `o` and `t`. -/
theorem frameValue_bounds {o t : ℤ} {frames i : ℕ}
    (ho0 : 0 ≤ o) (ho1 : o ≤ 255) (ht0 : 0 ≤ t) (ht1 : t ≤ 255)
    (hf : 0 < frames) (hi : i ≤ frames) :
    0 ≤ frameValue o t frames i ∧ frameValue o t frames i ≤ 255 := by
  have hfq : (0 : ℚ) < (frames : ℚ) := by exact_mod_cast hf
  have hiq : (i : ℚ) ≤ (frames : ℚ) := by exact_mod_cast hi
  have hiq0 : (0 : ℚ) ≤ (i : ℚ) := Nat.cast_nonneg i
  have ho0q : (0 : ℚ) ≤ (o : ℚ) := by exact_mod_cast ho0
  have ho1q : (o : ℚ) ≤ 255 := by exact_mod_cast ho1
  have ht0q : (0 : ℚ) ≤ (t : ℚ) := by exact_mod_cast ht0
  have ht1q : (t : ℚ) ≤ 255 := by exact_mod_cast ht1
  have key : (o : ℚ) + ((t : ℚ) - (o : ℚ)) / (frames : ℚ) * (i : ℚ)
      = ((o : ℚ) * ((frames : ℚ) - (i : ℚ)) + (t : ℚ) * (i : ℚ)) / (frames : ℚ) := by
    field_simp
    ring
  have hnum0 : (0 : ℚ) ≤ (o : ℚ) * ((frames : ℚ) - (i : ℚ)) + (t : ℚ) * (i : ℚ) := by
    have h1 : (0 : ℚ) ≤ (o : ℚ) * ((frames : ℚ) - (i : ℚ)) :=
      mul_nonneg ho0q (by linarith)
    have h2 : (0 : ℚ) ≤ (t : ℚ) * (i : ℚ) := mul_nonneg ht0q hiq0
    linarith
  have hnum1 : (o : ℚ) * ((frames : ℚ) - (i : ℚ)) + (t : ℚ) * (i : ℚ)
      ≤ 255 * (frames : ℚ) := by
    have h1 : (o : ℚ) * ((frames : ℚ) - (i : ℚ)) ≤ 255 * ((frames : ℚ) - (i : ℚ)) :=
      mul_le_mul_of_nonneg_right ho1q (by linarith)
    have h2 : (t : ℚ) * (i : ℚ) ≤ 255 * (i : ℚ) :=
      mul_le_mul_of_nonneg_right ht1q hiq0
    nlinarith
  have hq0 : ((0 : ℤ) : ℚ) ≤ (o : ℚ) + ((t : ℚ) - (o : ℚ)) / (frames : ℚ) * (i : ℚ) := by
    rw [key]
    push_cast
    exact div_nonneg hnum0 hfq.le
  have hq1 : (o : ℚ) + ((t : ℚ) - (o : ℚ)) / (frames : ℚ) * (i : ℚ) ≤ ((255 : ℤ) : ℚ) := by
    rw [key]
    push_cast
    rw [div_le_iff₀ hfq]
    linarith
  exact ⟨le_pyRound hq0, pyRound_le hq1⟩

/-- For a 1-based channel index in `[1, length]`, the Python read at
`c - 1` is the ordinary 0-based optional lookup. -/
theorem pyGet_channel_eq {l : List ℤ} {c : ℤ}
    (h1 : 1 ≤ c) (h2 : c ≤ (l.length : ℤ)) :
    pyGet l (c - 1) = l[(c - 1).toNat]? := by
  unfold pyGet
  rw [pyIndex_of_lt (by omega) (by omega), Option.some_bind]

/-! ### The `set_channels` loop -/

/-- Reduction of one `do`-step on a known-`some` value. -/
theorem bindSome {α β : Type} (a : α) (f : α → Option β) :
    (do let x ← some a; f x) = f a := rfl

/-- Reduction of one `do`-step on a known-`none` value. -/
theorem bindNone {α β : Type} (f : α → Option β) :
    (do let x ← (none : Option α); f x) = none := rfl

/-- Reduction of one `do`-step on a `pure` value. -/
theorem bindPure {α β : Type} (a : α) (f : α → Option β) :
    (do let x ← (pure a : Option α); f x) = f a := rfl

theorem setChannelsLoop_some {va : List ℤ} (hva : va ≠ []) :
    ∀ (chs : List ℤ) (x : ℕ) (buf : List ℤ),
    (∀ c ∈ chs, 1 ≤ c ∧ c ≤ (buf.length : ℤ)) →
    ∃ buf2, setChannelsLoop va x chs buf = some buf2 ∧ buf2.length = buf.length := by
  intro chs
  induction chs with
  | nil => exact fun x buf _ => ⟨buf, rfl, rfl⟩
  | cons c rest ih =>
      intro x buf hvalid
      obtain ⟨hc1, hc2⟩ := hvalid c (List.mem_cons_self c rest)
      have hrest : ∀ c2 ∈ rest, 1 ≤ c2 ∧ c2 ≤ ((buf.set (c - 1).toNat
          (va.getD (min x (va.length - 1)) 0)).length : ℤ) := by
        intro c2 hc2m
        have := hvalid c2 (List.mem_cons_of_mem c hc2m)
        simpa using this
      obtain ⟨buf2, hbuf2, hlen⟩ := ih (x + 1) _ hrest
      refine ⟨buf2, ?_, ?_⟩
      · unfold setChannelsLoop
        rw [targetFor_of_ne_nil hva, bindSome,
          pySet_channel _ hc1 hc2, bindSome]
        exact hbuf2
      · simpa using hlen

theorem setChannelsLoop_untouched {va : List ℤ} :
    ∀ {chs : List ℤ} {x : ℕ} {buf buf2 : List ℤ},
    (∀ c ∈ chs, 1 ≤ c) →
    setChannelsLoop va x chs buf = some buf2 →
    ∀ j : ℕ, (∀ c ∈ chs, (c - 1).toNat ≠ j) → buf2[j]? = buf[j]?
  | [], x, buf, buf2, _, h, j, _ => by
      unfold setChannelsLoop at h
      cases h
      rfl
  | c :: rest, x, buf, buf2, hge, h, j, hne => by
      unfold setChannelsLoop at h
      cases ht : targetFor va x with
      | none => rw [ht] at h; cases h
      | some t =>
          rw [ht, bindSome] at h
          cases hs : pySet buf (c - 1) t with
          | none => rw [hs] at h; cases h
          | some buf1 =>
              rw [hs, bindSome] at h
              have hstep : buf1[j]? = buf[j]? := by
                have hc1 : 1 ≤ c := hge c (List.mem_cons_self c rest)
                unfold pySet at hs
                rcases Option.map_eq_some'.mp hs with ⟨i, hi, hb⟩
                have hit : i = (c - 1).toNat := by
                  unfold pyIndex at hi
                  split at hi
                  · cases hi; omega
                  · split at hi
                    · cases hi; omega
                    · cases hi
                subst hb hit
                exact List.getElem?_set_ne
                  (hne c (List.mem_cons_self c rest))
              rw [← hstep]
              exact setChannelsLoop_untouched
                (fun c2 hm => hge c2 (List.mem_cons_of_mem c hm)) h j
                (fun c2 hm => hne c2 (List.mem_cons_of_mem c hm))

/-- In a successful `set_channels` loop over channels without duplicates
(all in range), each channel of the group ends at its selected target
value. -/
theorem setChannelsLoop_written {va : List ℤ} (hva : va ≠ []) :
    ∀ {chs : List ℤ} {x : ℕ} {buf buf2 : List ℤ},
    (∀ c ∈ chs, 1 ≤ c ∧ c ≤ (buf.length : ℤ)) →
    chs.Nodup →
    setChannelsLoop va x chs buf = some buf2 →
    ∀ k : ℕ, ∀ hk : k < chs.length,
      buf2[(chs.get ⟨k, hk⟩ - 1).toNat]? =
        some (va.getD (min (x + k) (va.length - 1)) 0)
  | [], x, buf, buf2, _, _, h, k, hk => absurd hk (by simp)
  | c :: rest, x, buf, buf2, hvalid, hnd, h, k, hk => by
      obtain ⟨hc1, hc2⟩ := hvalid c (List.mem_cons_self c rest)
      unfold setChannelsLoop at h
      rw [targetFor_of_ne_nil hva, bindSome,
        pySet_channel _ hc1 hc2, bindSome] at h
      rcases List.nodup_cons.mp hnd with ⟨hcnot, hndrest⟩
      set buf1 := buf.set (c - 1).toNat (va.getD (min x (va.length - 1)) 0) with hbuf1
      have hvrest : ∀ c2 ∈ rest, 1 ≤ c2 ∧ c2 ≤ (buf1.length : ℤ) := by
        intro c2 hm
        have := hvalid c2 (List.mem_cons_of_mem c hm)
        simpa [hbuf1] using this
      match k with
      | 0 =>
          have huntouched : buf2[(c - 1).toNat]? = buf1[(c - 1).toNat]? := by
            refine setChannelsLoop_untouched
              (fun c2 hm => (hvrest c2 hm).1) h (c - 1).toNat ?_
            intro c2 hm hne
            exact hcnot (by
              have hc21 : 1 ≤ c2 := (hvrest c2 hm).1
              have : c2 = c := by omega
              rwa [← this])
          have hset : buf1[(c - 1).toNat]? =
              some (va.getD (min x (va.length - 1)) 0) := by
            rw [hbuf1]
            exact List.getElem?_set_eq_of_lt _ (by omega)
          simp only [List.get]
          rw [huntouched, hset]
          norm_num
      | k' + 1 =>
          have := setChannelsLoop_written hva hvrest hndrest h k' (by
            simpa using Nat.lt_of_succ_lt_succ hk)
          simp only [List.get] at this ⊢
          rw [this]
          congr 2
          omega

/-- A successful Python write at a valid 1-based channel index is the
corresponding `List.set`. -/
theorem pySet_channel_out {buf buf1 : List ℤ} {c v : ℤ} (hc : 1 ≤ c)
    (h : pySet buf (c - 1) v = some buf1) : buf1 = buf.set (c - 1).toNat v := by
  unfold pySet at h
  rcases Option.map_eq_some'.mp h with ⟨i, hi, hb⟩
  have hit : i = (c - 1).toNat := by
    unfold pyIndex at hi
    split at hi
    · cases hi; omega
    · split at hi
      · cases hi; omega
      · cases hi
  rw [← hb, hit]

theorem setChannelsLoop_inv {va : List ℤ} {n : ℕ}
    (hvaInv : ∀ v ∈ va, 0 ≤ v ∧ v ≤ 255) :
    ∀ {chs : List ℤ} {x : ℕ} {buf buf2 : List ℤ},
    setChannelsLoop va x chs buf = some buf2 →
    BufInv n buf → BufInv n buf2
  | [], x, buf, buf2, h, hinv => by
      unfold setChannelsLoop at h
      cases h
      exact hinv
  | c :: rest, x, buf, buf2, h, hinv => by
      unfold setChannelsLoop at h
      cases ht : targetFor va x with
      | none => rw [ht] at h; cases h
      | some t =>
          rw [ht, bindSome] at h
          cases hs : pySet buf (c - 1) t with
          | none => rw [hs] at h; cases h
          | some buf1 =>
              rw [hs, bindSome] at h
              have hinv1 : BufInv n buf1 := by
                constructor
                · rw [pySet_some_length hs]
                  exact hinv.1
                · intro v hv
                  rcases pySet_mem hs hv with hmem | rfl
                  · exact hinv.2 v hmem
                  · exact hvaInv v (targetFor_mem ht)
              exact setChannelsLoop_inv hvaInv h hinv1

/-! ### The frame loop of `set_channels_async` -/

theorem applyFrame_some {orig va : List ℤ} (hva : va ≠ []) (frames i : ℕ) :
    ∀ (chs : List ℤ) (x : ℕ) (buf : List ℤ),
    (∀ c ∈ chs, 1 ≤ c ∧ c ≤ (orig.length : ℤ)) →
    buf.length = orig.length →
    ∃ buf2, applyFrame orig va frames i x chs buf = some buf2 ∧
      buf2.length = buf.length := by
  intro chs
  induction chs with
  | nil => exact fun x buf _ _ => ⟨buf, rfl, rfl⟩
  | cons c rest ih =>
      intro x buf hvalid hlen
      obtain ⟨hc1, hc2⟩ := hvalid c (List.mem_cons_self c rest)
      have hc2b : c ≤ (buf.length : ℤ) := by omega
      obtain ⟨buf2, hbuf2, hlen2⟩ := ih (x + 1)
        (buf.set (c - 1).toNat (frameValue (orig.getD (c - 1).toNat 0)
          (va.getD (min x (va.length - 1)) 0) frames i))
        (fun c2 hm => hvalid c2 (List.mem_cons_of_mem c hm))
        (by simpa using hlen)
      refine ⟨buf2, ?_, ?_⟩
      · unfold applyFrame
        rw [targetFor_of_ne_nil hva, bindSome, pyGet_channel hc1 hc2, bindSome,
          pySet_channel _ hc1 hc2b, bindSome]
        exact hbuf2
      · simpa using hlen2

theorem applyFrame_untouched {orig va : List ℤ} {frames i : ℕ} :
    ∀ {chs : List ℤ} {x : ℕ} {buf buf2 : List ℤ},
    (∀ c ∈ chs, 1 ≤ c) →
    applyFrame orig va frames i x chs buf = some buf2 →
    ∀ j : ℕ, (∀ c ∈ chs, (c - 1).toNat ≠ j) → buf2[j]? = buf[j]?
  | [], x, buf, buf2, _, h, j, _ => by
      unfold applyFrame at h
      cases h
      rfl
  | c :: rest, x, buf, buf2, hge, h, j, hne => by
      unfold applyFrame at h
      cases ht : targetFor va x with
      | none => rw [ht] at h; cases h
      | some t =>
          rw [ht, bindSome] at h
          cases ho : pyGet orig (c - 1) with
          | none => rw [ho] at h; cases h
          | some o =>
              rw [ho, bindSome] at h
              cases hs : pySet buf (c - 1) (frameValue o t frames i) with
              | none => rw [hs] at h; cases h
              | some buf1 =>
                  rw [hs, bindSome] at h
                  have hc1 : 1 ≤ c := hge c (List.mem_cons_self c rest)
                  have hstep : buf1[j]? = buf[j]? := by
                    rw [pySet_channel_out hc1 hs]
                    exact List.getElem?_set_ne (hne c (List.mem_cons_self c rest))
                  rw [← hstep]
                  exact applyFrame_untouched
                    (fun c2 hm => hge c2 (List.mem_cons_of_mem c hm)) h j
                    (fun c2 hm => hne c2 (List.mem_cons_of_mem c hm))

/-- In a successful frame over channels without duplicates (all in range),
each channel of the group ends at its interpolated frame value. -/
theorem applyFrame_written {orig va : List ℤ} (hva : va ≠ []) {frames i : ℕ} :
    ∀ {chs : List ℤ} {x : ℕ} {buf buf2 : List ℤ},
    (∀ c ∈ chs, 1 ≤ c ∧ c ≤ (orig.length : ℤ)) →
    buf.length = orig.length →
    chs.Nodup →
    applyFrame orig va frames i x chs buf = some buf2 →
    ∀ k : ℕ, ∀ hk : k < chs.length,
      buf2[(chs.get ⟨k, hk⟩ - 1).toNat]? =
        some (frameValue (orig.getD (chs.get ⟨k, hk⟩ - 1).toNat 0)
          (va.getD (min (x + k) (va.length - 1)) 0) frames i)
  | [], x, buf, buf2, _, _, _, h, k, hk => absurd hk (by simp)
  | c :: rest, x, buf, buf2, hvalid, hlen, hnd, h, k, hk => by
      obtain ⟨hc1, hc2⟩ := hvalid c (List.mem_cons_self c rest)
      have hc2b : c ≤ (buf.length : ℤ) := by omega
      unfold applyFrame at h
      rw [targetFor_of_ne_nil hva, bindSome, pyGet_channel hc1 hc2, bindSome,
        pySet_channel _ hc1 hc2b, bindSome] at h
      rcases List.nodup_cons.mp hnd with ⟨hcnot, hndrest⟩
      set w := frameValue (orig.getD (c - 1).toNat 0)
        (va.getD (min x (va.length - 1)) 0) frames i with hw
      have hvrest : ∀ c2 ∈ rest, 1 ≤ c2 ∧ c2 ≤ (orig.length : ℤ) :=
        fun c2 hm => hvalid c2 (List.mem_cons_of_mem c hm)
      have hlen1 : (buf.set (c - 1).toNat w).length = orig.length := by
        simpa using hlen
      match k with
      | 0 =>
          have huntouched : buf2[(c - 1).toNat]? =
              (buf.set (c - 1).toNat w)[(c - 1).toNat]? := by
            refine applyFrame_untouched (fun c2 hm => (hvrest c2 hm).1) h
              (c - 1).toNat ?_
            intro c2 hm hne
            exact hcnot (by
              have hc21 : 1 ≤ c2 := (hvrest c2 hm).1
              have hceq : c2 = c := by omega
              rwa [← hceq])
          have hset : (buf.set (c - 1).toNat w)[(c - 1).toNat]? = some w :=
            List.getElem?_set_eq_of_lt _ (by omega)
          simp only [List.get]
          rw [huntouched, hset, hw]
          norm_num
      | k2 + 1 =>
          have hrec := applyFrame_written hva hvrest hlen1 hndrest h k2
            (by simpa using Nat.lt_of_succ_lt_succ hk)
          simp only [List.get] at hrec ⊢
          rw [hrec]
          congr 3
          omega

theorem applyFrame_inv {orig va : List ℤ} {n frames i : ℕ}
    (hvaInv : ∀ v ∈ va, 0 ≤ v ∧ v ≤ 255)
    (horigInv : ∀ v ∈ orig, 0 ≤ v ∧ v ≤ 255)
    (hf : 0 < frames) (hi : i ≤ frames) :
    ∀ {chs : List ℤ} {x : ℕ} {buf buf2 : List ℤ},
    applyFrame orig va frames i x chs buf = some buf2 →
    BufInv n buf → BufInv n buf2
  | [], x, buf, buf2, h, hinv => by
      unfold applyFrame at h
      cases h
      exact hinv
  | c :: rest, x, buf, buf2, h, hinv => by
      unfold applyFrame at h
      cases ht : targetFor va x with
      | none => rw [ht] at h; cases h
      | some t =>
          rw [ht, bindSome] at h
          cases ho : pyGet orig (c - 1) with
          | none => rw [ho] at h; cases h
          | some o =>
              rw [ho, bindSome] at h
              cases hs : pySet buf (c - 1) (frameValue o t frames i) with
              | none => rw [hs] at h; cases h
              | some buf1 =>
                  rw [hs, bindSome] at h
                  have hinv1 : BufInv n buf1 := by
                    constructor
                    · rw [pySet_some_length hs]
                      exact hinv.1
                    · intro v hv
                      rcases pySet_mem hs hv with hmem | rfl
                      · exact hinv.2 v hmem
                      · obtain ⟨ho0, ho1⟩ := horigInv o (pyGet_mem ho)
                        obtain ⟨ht0, ht1⟩ := hvaInv t (targetFor_mem ht)
                        exact frameValue_bounds ho0 ho1 ht0 ht1 hf hi
                  exact applyFrame_inv hvaInv horigInv hf hi h hinv1

theorem runFrames_some_final {orig va : List ℤ} (hva : va ≠ [])
    {chs : List ℤ} (hvalid : ∀ c ∈ chs, 1 ≤ c ∧ c ≤ (orig.length : ℤ))
    (hnd : chs.Nodup) {frames : ℕ} (hf : frames ≠ 0) :
    ∀ (k : ℕ) (buf : List ℤ), buf.length = orig.length → 1 ≤ k → k ≤ frames →
    ∃ out, runFrames orig va chs frames k buf = some out ∧
      out.length = buf.length ∧
      ∀ (idx : ℕ) (hk : idx < chs.length),
        out[(chs.get ⟨idx, hk⟩ - 1).toNat]? =
          some (va.getD (min idx (va.length - 1)) 0)
  | 0, buf, _, h1, _ => absurd h1 (by omega)
  | 1, buf, hlen, _, _ => by
      obtain ⟨buf2, hbuf2, hlen2⟩ :=
        applyFrame_some hva frames (frames - 0) chs 0 buf hvalid hlen
      refine ⟨buf2, ?_, hlen2, ?_⟩
      · unfold runFrames
        rw [hbuf2, bindSome]
        rfl
      · intro idx hk
        have hw := applyFrame_written hva hvalid hlen hnd hbuf2 idx hk
        rw [hw]
        have hi : frames - 0 = frames := by omega
        rw [hi, frameValue_last _ _ hf]
        simp
  | k + 2, buf, hlen, _, hkf => by
      obtain ⟨buf1, hbuf1, hlen1⟩ :=
        applyFrame_some hva frames (frames - (k + 1)) chs 0 buf hvalid hlen
      obtain ⟨out, hout, hlenOut, hfinal⟩ :=
        runFrames_some_final hva hvalid hnd hf (k + 1) buf1
          (hlen1.trans hlen) (by omega) (by omega)
      refine ⟨out, ?_, by omega, hfinal⟩
      unfold runFrames
      rw [hbuf1, bindSome]
      exact hout

theorem frameTrace_length {orig va chs : List ℤ} {frames : ℕ} :
    ∀ {k : ℕ} {buf : List ℤ} {tr : List (List ℤ)},
    frameTrace orig va chs frames k buf = some tr → tr.length = k
  | 0, buf, tr, h => by
      unfold frameTrace at h
      cases h
      rfl
  | k + 1, buf, tr, h => by
      unfold frameTrace at h
      cases hb : applyFrame orig va frames (frames - k) 0 chs buf with
      | none => rw [hb] at h; cases h
      | some buf1 =>
          rw [hb, bindSome] at h
          cases hr : frameTrace orig va chs frames k buf1 with
          | none => rw [hr] at h; cases h
          | some rest =>
              rw [hr, bindSome] at h
              cases h
              have := frameTrace_length hr
              simp [this]

theorem frameTrace_runFrames (orig va chs : List ℤ) (frames : ℕ) :
    ∀ (k : ℕ) (buf : List ℤ),
    (frameTrace orig va chs frames k buf).map (fun tr => tr.getLastD buf) =
      runFrames orig va chs frames k buf
  | 0, buf => rfl
  | k + 1, buf => by
      unfold frameTrace runFrames
      cases hb : applyFrame orig va frames (frames - k) 0 chs buf with
      | none => rw [bindNone, bindNone]; rfl
      | some buf1 =>
          rw [bindSome, bindSome]
          have ih := frameTrace_runFrames orig va chs frames k buf1
          cases hr : frameTrace orig va chs frames k buf1 with
          | none =>
              rw [bindNone]
              rw [hr] at ih
              simpa using ih
          | some rest =>
              rw [bindSome]
              rw [hr] at ih
              rw [← ih]
              show some ((buf1 :: rest).getLastD buf) = some (rest.getLastD buf1)
              rw [List.getLastD_cons]

theorem frameTrace_some {orig va : List ℤ} (hva : va ≠ [])
    {chs : List ℤ} (hvalid : ∀ c ∈ chs, 1 ≤ c ∧ c ≤ (orig.length : ℤ))
    {frames : ℕ} :
    ∀ (k : ℕ) (buf : List ℤ), buf.length = orig.length →
    ∃ tr, frameTrace orig va chs frames k buf = some tr
  | 0, buf, _ => ⟨[], rfl⟩
  | k + 1, buf, hlen => by
      obtain ⟨buf1, hbuf1, hlen1⟩ :=
        applyFrame_some hva frames (frames - k) chs 0 buf hvalid hlen
      obtain ⟨rest, hrest⟩ := frameTrace_some hva hvalid k buf1 (hlen1.trans hlen)
      refine ⟨buf1 :: rest, ?_⟩
      unfold frameTrace
      rw [hbuf1, bindSome, hrest, bindSome]
      rfl

theorem frameTrace_inv {orig va : List ℤ} {n frames : ℕ}
    (hvaInv : ∀ v ∈ va, 0 ≤ v ∧ v ≤ 255)
    (horigInv : ∀ v ∈ orig, 0 ≤ v ∧ v ≤ 255)
    (hf : 0 < frames) :
    ∀ {k : ℕ} {buf : List ℤ} {tr : List (List ℤ)},
    frameTrace orig va chs frames k buf = some tr →
    BufInv n buf → ∀ b ∈ tr, BufInv n b
  | 0, buf, tr, h, hinv => by
      unfold frameTrace at h
      cases h
      intro b hb
      cases hb
  | k + 1, buf, tr, h, hinv => by
      unfold frameTrace at h
      cases hb : applyFrame orig va frames (frames - k) 0 chs buf with
      | none => rw [hb] at h; cases h
      | some buf1 =>
          rw [hb, bindSome] at h
          cases hr : frameTrace orig va chs frames k buf1 with
          | none => rw [hr] at h; cases h
          | some rest =>
              rw [hr, bindSome] at h
              cases h
              have hinv1 : BufInv n buf1 :=
                applyFrame_inv hvaInv horigInv hf (Nat.sub_le frames k) hb hinv
              intro b hbm
              rcases List.mem_cons.mp hbm with rfl | hbm2
              · exact hinv1
              · exact frameTrace_inv hvaInv horigInv hf hr hinv1 b hbm2

/-! ### Supersession of a running transition -/

/-- A transition whose per-frame check first observes a changed command id
after frame `j` executes exactly frames `1, …, j` and stops, leaving the
buffer as frame `j` wrote it. -/
theorem runFramesSup_eq_runSteps {orig va chs : List ℤ} {frames : ℕ}
    {ids : ℕ → ℕ} {myId j : ℕ}
    (hmid : ∀ i, 1 ≤ i → i < j → ids i = myId) (hj : ids j ≠ myId)
    (hjf : j ≤ frames) :
    ∀ (k : ℕ) (buf : List ℤ), k ≤ frames → frames - k < j →
    runFramesSup orig va chs frames ids myId k buf =
      runSteps orig va chs frames (frames - k + 1) (j - (frames - k)) buf
  | 0, buf, hk, hlt => absurd hlt (by omega)
  | k + 1, buf, hk, hlt => by
      have hi1 : 1 ≤ frames - k := by omega
      have hij : frames - k ≤ j := by omega
      have hidx : frames - (k + 1) + 1 = frames - k := by omega
      have hsteps : j - (frames - (k + 1)) = (j - (frames - k)) + 1 := by omega
      rw [hidx, hsteps]
      show (do
          let buf2 ← applyFrame orig va frames (frames - k) 0 chs buf
          if ids (frames - k) ≠ myId then some buf2
          else runFramesSup orig va chs frames ids myId k buf2) =
        runSteps orig va chs frames (frames - k) (j - (frames - k) + 1) buf
      unfold runSteps
      cases hb : applyFrame orig va frames (frames - k) 0 chs buf with
      | none => rw [bindNone, bindNone]
      | some buf1 =>
          rw [bindSome, bindSome]
          rcases eq_or_lt_of_le hij with heq | hltj
          · rw [if_pos (heq ▸ hj)]
            have hz : j - (frames - k) = 0 := by omega
            rw [hz]
            rfl
          · rw [if_neg (not_not_intro (hmid (frames - k) hi1 hltj))]
            have ih := @runFramesSup_eq_runSteps orig va chs frames ids myId j
              hmid hj hjf k buf1 (by omega) (by omega)
            rw [ih]

/-! ### sACN sequence counter -/

theorem sacnSeqAfter_le (k : ℕ) : sacnSeqAfter k ≤ 199 := by
  induction k with
  | zero => simp [sacnSeqAfter]
  | succ k ih =>
      unfold sacnSeqAfter
      split <;> omega

theorem sacnSeqAfter_pos {k : ℕ} (h : 1 ≤ k) : 1 ≤ sacnSeqAfter k := by
  cases k with
  | zero => omega
  | succ k =>
      unfold sacnSeqAfter
      split <;> omega

theorem byteList_replicate {m : ℕ} {d : ℤ} (h0 : 0 ≤ d) (h1 : d ≤ 255) :
    byteList (List.replicate m d) = some (List.replicate m d.toNat) := by
  unfold byteList
  rw [if_pos]
  · rw [List.map_replicate]
  · intro v hv
    rw [List.eq_of_mem_replicate hv]
    exact ⟨h0, h1⟩

/-- A send from a well-formed state succeeds and produces the documented
packet and successor state. -/
theorem sacnSend_eq {g : SACNGateway} (hseq : g.sequence ≤ 255)
    (hch : ∀ v ∈ g.channels, 0 ≤ v ∧ v ≤ 255) :
    g.send = some
      (g.base_packet.take 111 ++ [g.sequence] ++ g.base_packet.drop 112 ++
        g.channels.map Int.toNat,
      { g with sequence := if g.sequence + 1 = 200 then 1 else g.sequence + 1 }) := by
  unfold SACNGateway.send packB byteList
  rw [if_pos hseq, bindSome, if_pos hch, bindSome]
  rfl

theorem sacnIterate_init {u n : ℕ} {d : ℤ} (h0 : 0 ≤ d) (h1 : d ≤ 255) :
    ∀ k : ℕ, sacnIterate (SACNGateway.init u n d) k =
      some { base_packet := sacnBasePacket u,
             channels := initChannels d n,
             sequence := sacnSeqAfter k }
  | 0 => rfl
  | k + 1 => by
      unfold sacnIterate
      rw [sacnIterate_init h0 h1 k, bindSome]
      have hch : ∀ v ∈ initChannels d n, 0 ≤ v ∧ v ≤ 255 := by
        intro v hv
        rw [List.eq_of_mem_replicate hv]
        exact ⟨h0, h1⟩
      rw [sacnSend_eq (by have := sacnSeqAfter_le k; omega : sacnSeqAfter k ≤ 255) hch, bindSome]
      rfl

theorem sacnBasePacket_length (u : ℕ) : (sacnBasePacket u).length = 126 := by
  have h1 : (ords "ASC-E1.17").length = 9 := rfl
  have h2 : (ords "ThisIsMyCIDxxxxx").length = 16 := rfl
  have h3 : (ords "-HA-DMX-Over-IP--HA-DMX-Over-IP--HA-DMX-Over-IP--HA-DMX-Over-IP-").length = 64 := rfl
  simp [sacnBasePacket, packBE16, h1, h2, h3]

/-- The byte at index 111 of the datagram of the `k`-th send (the sequence
byte slot) is the stored counter before that send. -/
theorem sacnEmitted_init {u n : ℕ} {d : ℤ} (h0 : 0 ≤ d) (h1 : d ≤ 255)
    (k : ℕ) :
    sacnEmitted (SACNGateway.init u n d) k = some (sacnSeqAfter (k - 1)) := by
  unfold sacnEmitted
  rw [sacnIterate_init h0 h1 (k - 1), bindSome]
  have hch : ∀ v ∈ initChannels d n, 0 ≤ v ∧ v ≤ 255 := by
    intro v hv
    rw [List.eq_of_mem_replicate hv]
    exact ⟨h0, h1⟩
  rw [sacnSend_eq (by have := sacnSeqAfter_le (k - 1); omega :
    sacnSeqAfter (k - 1) ≤ 255) hch, bindSome]
  show ((sacnBasePacket u).take 111 ++ [sacnSeqAfter (k - 1)] ++
      (sacnBasePacket u).drop 112 ++
      (initChannels d n).map Int.toNat)[111]? =
    some (sacnSeqAfter (k - 1))
  have hlen : ((sacnBasePacket u).take 111).length = 111 := by
    rw [List.length_take, sacnBasePacket_length]
    rfl
  rw [List.append_assoc, List.append_assoc,
    List.getElem?_append_right (by omega), hlen]
  rfl

/-! ### Operation sequences and the buffer invariant -/

theorem opRun_inv {n : ℕ} {buf buf2 : List ℤ} {op : DMXOp}
    {tr : List (List ℤ)}
    (hop : ∀ v ∈ opValues op, 0 ≤ v ∧ v ≤ 255)
    (h : opRun buf op = some (tr, buf2)) (hinv : BufInv n buf) :
    (∀ b ∈ tr, BufInv n b) ∧ BufInv n buf2 := by
  cases op with
  | set chs v =>
      simp only [opRun, set_channels] at h
      cases hs : setChannelsLoop (valueArr v) 0 chs buf with
      | none => rw [hs, bindNone] at h; cases h
      | some b =>
          rw [hs, bindSome] at h
          simp only [Option.pure_def, Option.some.injEq, Prod.mk.injEq] at h
          obtain ⟨htr, hbuf⟩ := h
          subst htr
          subst hbuf
          have hbinv : BufInv n b := setChannelsLoop_inv hop hs hinv
          refine ⟨fun b2 hb2 => ?_, hbinv⟩
          rcases List.mem_singleton.mp hb2 with rfl
          exact hbinv
  | fade chs v t f =>
      simp only [opRun] at h
      cases htr : frameTrace buf (valueArr v) chs
          (numberOfFrames t f) (numberOfFrames t f) buf with
      | none => rw [htr, bindNone] at h; cases h
      | some tr2 =>
          rw [htr, bindSome] at h
          simp only [Option.pure_def, Option.some.injEq, Prod.mk.injEq] at h
          obtain ⟨htr2, hbuf⟩ := h
          subst htr2
          subst hbuf
          have htrInv : ∀ b ∈ tr2, BufInv n b :=
            frameTrace_inv hop hinv.2
              (by have := numberOfFrames_pos t f; omega) htr hinv
          refine ⟨htrInv, ?_⟩
          rcases List.mem_cons.mp (List.getLastD_mem_cons tr2 buf) with heq | hmem
          · rw [heq]
            exact hinv
          · exact htrInv _ hmem

theorem runOps_inv {n : ℕ} :
    ∀ {ops : List DMXOp} {buf : List ℤ} {trs : List (List ℤ)},
    (∀ op ∈ ops, ∀ v ∈ opValues op, 0 ≤ v ∧ v ≤ 255) →
    runOps ops buf = some trs → BufInv n buf →
    ∀ b ∈ trs, BufInv n b
  | [], buf, trs, _, h, hinv => by
      unfold runOps at h
      cases h
      intro b hb
      cases hb
  | op :: rest, buf, trs, hops, h, hinv => by
      unfold runOps at h
      cases ho : opRun buf op with
      | none => rw [ho, bindNone] at h; cases h
      | some p =>
          rw [ho, bindSome] at h
          cases hr : runOps rest p.2 with
          | none => rw [hr, bindNone] at h; cases h
          | some trs2 =>
              rw [hr, bindSome] at h
              cases h
              have hp : opRun buf op = some (p.1, p.2) := by
                rw [ho]
              obtain ⟨htrInv, hb2⟩ :=
                opRun_inv (hops op (List.mem_cons_self op rest)) hp hinv
              intro b hb
              rcases List.mem_append.mp hb with hb1 | hb2m
              · exact htrInv b hb1
              · exact runOps_inv
                  (fun o hm => hops o (List.mem_cons_of_mem op hm)) hr hb2 b hb2m

/-! ### Art-Net and KiNet sends -/

theorem artnetSend_eq {g : ArtNetGateway}
    (hch : ∀ v ∈ g.channels, 0 ≤ v ∧ v ≤ 255) :
    g.send = some (g.base_packet ++ g.channels.map Int.toNat, g) := by
  unfold ArtNetGateway.send byteList
  rw [if_pos hch, bindSome]
  rfl

theorem kinetSend_eq {g : KiNetGateway} (hlen : g.channels.length = 512)
    (hch : ∀ v ∈ g.channels, 0 ≤ v ∧ v ≤ 255) :
    g.send = some (g.base_packet ++ g.channels.map Int.toNat, g) := by
  unfold KiNetGateway.send pack512B
  rw [if_pos ⟨hlen, hch⟩, bindSome]
  rfl

/-- `pack("512B", *channels)` raises unless the buffer holds exactly 512
values, so `send` produces no datagram. -/
theorem kinetSend_none {g : KiNetGateway} (hlen : g.channels.length ≠ 512) :
    g.send = none := by
  unfold KiNetGateway.send pack512B
  rw [if_neg (fun hc => hlen hc.1), bindNone]

theorem kinetBasePacket_length (u : ℕ) : (kinetBasePacket u).length = 21 := rfl

/-! ### Claims -/

/-- C1: for every channel group (distinct in-range channels), target
vector, duration `D ≥ 0` and frame rate `F > 0`, an unsuperseded
`set_channels_async` call executes exactly `max(floor(D * F), 1)` frames,
and after the last frame every channel of the group holds exactly its
target value; in particular with `D = 0` it executes exactly one frame and
the buffer is exactly at the target vector. -/
theorem C1_async_frame_count_and_exact_target
    (buf channels : List ℤ) (value : DMXValue) (D F : ℚ)
    (hnd : channels.Nodup)
    (hvalid : ∀ c ∈ channels, 1 ≤ c ∧ c ≤ (buf.length : ℤ))
    (hva : valueArr value ≠ [])
    (hD : 0 ≤ D) (hF : 0 < F) :
    ∃ out tr,
      set_channels_async buf channels value D F = some out ∧
      frameTrace buf (valueArr value) channels (numberOfFrames D F)
        (numberOfFrames D F) buf = some tr ∧
      tr.length = max (⌊D * F⌋).toNat 1 ∧
      (D = 0 → tr.length = 1) ∧
      tr.getLastD buf = out ∧
      ∀ (x : ℕ) (hx : x < channels.length),
        pyGet out (channels.get ⟨x, hx⟩ - 1) =
          some ((valueArr value).getD
            (min x ((valueArr value).length - 1)) 0) := by
  have hfp : 1 ≤ numberOfFrames D F := numberOfFrames_pos D F
  have hfr : numberOfFrames D F ≠ 0 := by omega
  obtain ⟨out, hout, hlen, hfinal⟩ :=
    runFrames_some_final hva hvalid hnd hfr (numberOfFrames D F) buf rfl hfp
      (le_refl _)
  obtain ⟨tr, htr⟩ := frameTrace_some hva hvalid (numberOfFrames D F) buf rfl
  have htrlen : tr.length = numberOfFrames D F := frameTrace_length htr
  refine ⟨out, tr, hout, htr, ?_, ?_, ?_, ?_⟩
  · rw [htrlen, numberOfFrames_eq hD hF]
  · intro hD0
    rw [htrlen, numberOfFrames_eq hD hF, hD0]
    norm_num
  · have hrel := frameTrace_runFrames buf (valueArr value) channels
      (numberOfFrames D F) (numberOfFrames D F) buf
    rw [htr, hout] at hrel
    simpa using hrel
  · intro x hx
    obtain ⟨hc1, hc2⟩ := hvalid _ (List.get_mem channels x hx)
    have hc2b : channels.get ⟨x, hx⟩ ≤ (out.length : ℤ) := by
      rw [hlen]
      omega
    rw [pyGet_channel_eq hc1 hc2b]
    exact hfinal x hx

theorem C1_witness :
    ∃ out tr,
      set_channels_async [0, 0] [1, 2] (DMXValue.vector [10, 20]) 0 40 =
        some out ∧
      frameTrace [0, 0] (valueArr (DMXValue.vector [10, 20])) [1, 2]
        (numberOfFrames 0 40) (numberOfFrames 0 40) [0, 0] = some tr ∧
      tr.length = max (⌊(0 : ℚ) * 40⌋).toNat 1 ∧
      ((0 : ℚ) = 0 → tr.length = 1) ∧
      tr.getLastD [0, 0] = out ∧
      ∀ (x : ℕ) (hx : x < ([1, 2] : List ℤ).length),
        pyGet out (([1, 2] : List ℤ).get ⟨x, hx⟩ - 1) =
          some ((valueArr (DMXValue.vector [10, 20])).getD
            (min x ((valueArr (DMXValue.vector [10, 20])).length - 1)) 0) :=
  C1_async_frame_count_and_exact_target [0, 0] [1, 2]
    (DMXValue.vector [10, 20]) 0 40 (by decide) (by decide) (by decide)
    (by decide) (by decide)

/-- C2 counterexample: the first send of a fresh sACN session emits
sequence byte 0 (the claim says the byte starts at 1 and is never 0), and
at the wrap the 200th send emits 199 while the 201st emits 1 — the
emitted byte wraps from 199 to 1, never reaching 200. -/
theorem C2_counterexample :
    sacnEmitted (SACNGateway.init 1 4 0) 1 = some 0 ∧
    sacnEmitted (SACNGateway.init 1 4 0) 200 = some 199 ∧
    sacnEmitted (SACNGateway.init 1 4 0) 201 = some 1 := by
  refine ⟨by decide, ?_, ?_⟩
  · rw [sacnEmitted_init (by decide) (by decide) 200]
    decide
  · rw [sacnEmitted_init (by decide) (by decide) 201]
    decide

/-- C2 (amended): the sACN sequence byte emitted on the first send is 0;
each consecutive send emits the previous byte plus 1, except that a byte
of 199 is followed by 1; every emitted byte is at most 199 (200 is never
emitted), and every byte from the second send on is at least 1. -/
theorem C2_sacn_sequence_amended (u n : ℕ) (d : ℤ) (k : ℕ)
    (h0 : 0 ≤ d) (h1 : d ≤ 255) (hk : 1 ≤ k) :
    ∃ b, sacnEmitted (SACNGateway.init u n d) k = some b ∧
      b ≤ 199 ∧
      (k = 1 → b = 0) ∧
      (2 ≤ k → 1 ≤ b) ∧
      sacnEmitted (SACNGateway.init u n d) (k + 1) =
        some (if b = 199 then 1 else b + 1) := by
  refine ⟨sacnSeqAfter (k - 1), sacnEmitted_init h0 h1 k,
    sacnSeqAfter_le _, ?_, ?_, ?_⟩
  · intro hk1
    subst hk1
    rfl
  · intro hk2
    exact sacnSeqAfter_pos (by omega)
  · rw [sacnEmitted_init h0 h1 (k + 1)]
    congr 1
    have hk1 : k + 1 - 1 = (k - 1) + 1 := by omega
    rw [hk1]
    show (if sacnSeqAfter (k - 1) + 1 = 200 then 1
      else sacnSeqAfter (k - 1) + 1) = _
    by_cases hb : sacnSeqAfter (k - 1) = 199
    · rw [if_pos (by omega), if_pos hb]
    · rw [if_neg (by omega), if_neg hb]

theorem C2_amended_witness :
    ∃ b, sacnEmitted (SACNGateway.init 1 4 0) 1 = some b ∧
      b ≤ 199 ∧
      (1 = 1 → b = 0) ∧
      (2 ≤ 1 → 1 ≤ b) ∧
      sacnEmitted (SACNGateway.init 1 4 0) (1 + 1) =
        some (if b = 199 then 1 else b + 1) :=
  C2_sacn_sequence_amended 1 4 0 1 (by decide) (by decide) (by decide)

/-- C3 counterexample: a KiNet gateway configured with 2 channels cannot
send at all — `pack("512B", *self._channels)` raises `struct.error`
instead of padding the payload to 512 bytes, so no datagram with a
512-byte payload is produced. -/
theorem C3_counterexample : (KiNetGateway.init 0 2 0).send = none := by
  decide

/-- C3 (amended): the KiNet channel payload is exactly 512 bytes only
when the even-rounded channel count is exactly 512 (configured counts 511
or 512); for every other configured count in [1, 512] `send` raises
`struct.error` and produces no datagram — shorter buffers are never
padded. -/
theorem C3_kinet_payload_amended (u n : ℕ) (d : ℤ)
    (hn1 : 1 ≤ n) (hn2 : n ≤ 512) (h0 : 0 ≤ d) (h1 : d ≤ 255) :
    (evenChannels n = 512 →
      (KiNetGateway.init u n d).send =
        some (kinetBasePacket u ++ List.replicate 512 d.toNat,
          KiNetGateway.init u n d) ∧
      (kinetBasePacket u ++ List.replicate 512 d.toNat).length = 21 + 512) ∧
    (evenChannels n ≠ 512 → (KiNetGateway.init u n d).send = none) := by
  constructor
  · intro h512
    constructor
    · have hlen : (KiNetGateway.init u n d).channels.length = 512 := by
        show (initChannels d n).length = 512
        rw [initChannels, List.length_replicate, h512]
      have hch : ∀ v ∈ (KiNetGateway.init u n d).channels,
          0 ≤ v ∧ v ≤ 255 := by
        intro v hv
        rw [List.eq_of_mem_replicate hv]
        exact ⟨h0, h1⟩
      rw [kinetSend_eq hlen hch]
      show some (kinetBasePacket u ++
        (List.replicate (evenChannels n) d).map Int.toNat,
        KiNetGateway.init u n d) = _
      rw [List.map_replicate, h512]
    · rw [List.length_append, kinetBasePacket_length, List.length_replicate]
  · intro hne
    apply kinetSend_none
    show (initChannels d n).length ≠ 512
    rw [initChannels, List.length_replicate]
    exact hne

theorem C3_amended_witness :
    ((evenChannels 511 = 512 →
      (KiNetGateway.init 0 511 7).send =
        some (kinetBasePacket 0 ++ List.replicate 512 (7 : ℤ).toNat,
          KiNetGateway.init 0 511 7) ∧
      (kinetBasePacket 0 ++ List.replicate 512 (7 : ℤ).toNat).length =
        21 + 512) ∧
    (evenChannels 511 ≠ 512 → (KiNetGateway.init 0 511 7).send = none)) :=
  C3_kinet_payload_amended 0 511 7 (by decide) (by decide) (by decide)
    (by decide)

/-- C4: the Art-Net datagram for a gateway constructed with universe 0 and
channel count 4, whose buffer holds [10, 20, 30, 40], is byte-for-byte:
the ASCII codes of "Art-Net" and a null byte, opcode 0x00 0x50, protocol
version 0x00 0x0E, sequence/physical 0x00 0x00, universe 0x00 0x00,
channel count 0x00 0x04, then the payload 0x0A 0x14 0x1E 0x28. -/
theorem C4_artnet_packet_bytes :
    ({ ArtNetGateway.init 0 4 0 with channels := [10, 20, 30, 40] } :
        ArtNetGateway).send =
      some ([65, 114, 116, 45, 78, 101, 116, 0x00, 0x00, 0x50, 0x00, 0x0E,
             0x00, 0x00, 0x00, 0x00, 0x00, 0x04, 0x0A, 0x14, 0x1E, 0x28],
        { ArtNetGateway.init 0 4 0 with channels := [10, 20, 30, 40] }) := by
  decide

/-- C5: `set_channels` / `set_channels_async` broadcast a scalar value to
every channel of the group, assign a vector positionally, and repeat the
last vector element when the vector is shorter than the group. -/
theorem C5_value_broadcast_rules
    (buf channels : List ℤ) (value : DMXValue) (D F : ℚ)
    (hnd : channels.Nodup)
    (hvalid : ∀ c ∈ channels, 1 ≤ c ∧ c ≤ (buf.length : ℤ))
    (hva : valueArr value ≠ []) :
    ∃ out1 out2,
      set_channels buf channels value = some out1 ∧
      set_channels_async buf channels value D F = some out2 ∧
      ∀ (x : ℕ) (hx : x < channels.length),
        (∀ v, value = DMXValue.scalar v →
          pyGet out1 (channels.get ⟨x, hx⟩ - 1) = some v ∧
          pyGet out2 (channels.get ⟨x, hx⟩ - 1) = some v) ∧
        ∀ vs, value = DMXValue.vector vs →
          (x < vs.length →
            pyGet out1 (channels.get ⟨x, hx⟩ - 1) = some (vs.getD x 0) ∧
            pyGet out2 (channels.get ⟨x, hx⟩ - 1) = some (vs.getD x 0)) ∧
          (vs.length ≤ x →
            pyGet out1 (channels.get ⟨x, hx⟩ - 1) =
              some (vs.getD (vs.length - 1) 0) ∧
            pyGet out2 (channels.get ⟨x, hx⟩ - 1) =
              some (vs.getD (vs.length - 1) 0)) := by
  obtain ⟨out1, hout1, hlen1⟩ := setChannelsLoop_some hva channels 0 buf hvalid
  have hfp : 1 ≤ numberOfFrames D F := numberOfFrames_pos D F
  obtain ⟨out2, hout2, hlen2, hfinal2⟩ :=
    runFrames_some_final hva hvalid hnd (by omega) (numberOfFrames D F) buf
      rfl hfp (le_refl _)
  refine ⟨out1, out2, hout1, hout2, ?_⟩
  intro x hx
  obtain ⟨hc1, hc2⟩ := hvalid _ (List.get_mem channels x hx)
  have hg1 : pyGet out1 (channels.get ⟨x, hx⟩ - 1) =
      some ((valueArr value).getD (min x ((valueArr value).length - 1)) 0) := by
    have hw := setChannelsLoop_written hva hvalid hnd hout1 x hx
    rw [pyGet_channel_eq hc1 (by rw [hlen1]; omega)]
    simpa using hw
  have hg2 : pyGet out2 (channels.get ⟨x, hx⟩ - 1) =
      some ((valueArr value).getD (min x ((valueArr value).length - 1)) 0) := by
    rw [pyGet_channel_eq hc1 (by rw [hlen2]; omega)]
    exact hfinal2 x hx
  constructor
  · intro v hv
    subst hv
    simp only [valueArr] at hg1 hg2
    constructor
    · rw [hg1]
      simp
    · rw [hg2]
      simp
  · intro vs hv
    subst hv
    simp only [valueArr] at hg1 hg2
    have hlenpos : 1 ≤ vs.length :=
      List.length_pos.mpr (by simpa [valueArr] using hva)
    constructor
    · intro hxlt
      rw [hg1, hg2, min_eq_left (by omega)]
      exact ⟨rfl, rfl⟩
    · intro hxge
      rw [hg1, hg2, min_eq_right (by omega)]
      exact ⟨rfl, rfl⟩

theorem C5_witness :
    ∃ out1 out2,
      set_channels [0, 0, 0] [1, 2, 3] (DMXValue.vector [7, 9]) = some out1 ∧
      set_channels_async [0, 0, 0] [1, 2, 3] (DMXValue.vector [7, 9]) 0 40 =
        some out2 ∧
      ∀ (x : ℕ) (hx : x < ([1, 2, 3] : List ℤ).length),
        (∀ v, DMXValue.vector [7, 9] = DMXValue.scalar v →
          pyGet out1 (([1, 2, 3] : List ℤ).get ⟨x, hx⟩ - 1) = some v ∧
          pyGet out2 (([1, 2, 3] : List ℤ).get ⟨x, hx⟩ - 1) = some v) ∧
        ∀ vs, DMXValue.vector [7, 9] = DMXValue.vector vs →
          (x < vs.length →
            pyGet out1 (([1, 2, 3] : List ℤ).get ⟨x, hx⟩ - 1) =
              some (vs.getD x 0) ∧
            pyGet out2 (([1, 2, 3] : List ℤ).get ⟨x, hx⟩ - 1) =
              some (vs.getD x 0)) ∧
          (vs.length ≤ x →
            pyGet out1 (([1, 2, 3] : List ℤ).get ⟨x, hx⟩ - 1) =
              some (vs.getD (vs.length - 1) 0) ∧
            pyGet out2 (([1, 2, 3] : List ℤ).get ⟨x, hx⟩ - 1) =
              some (vs.getD (vs.length - 1) 0)) :=
  C5_value_broadcast_rules [0, 0, 0] [1, 2, 3] (DMXValue.vector [7, 9]) 0 40
    (by decide) (by decide) (by decide)

/-- `set_channels` with channel index 0 silently writes the last channel
of the buffer: the write lands on Python index `-1`. -/
theorem set_channels_index_zero {buf : List ℤ} (v : ℤ) (hbuf : buf ≠ []) :
    set_channels buf [0] (DMXValue.scalar v) =
      some (buf.set (buf.length - 1) v) := by
  have hlen : 1 ≤ buf.length := List.length_pos.mpr hbuf
  have htf : targetFor [v] 0 = some v := by
    rw [targetFor_of_ne_nil (by simp) 0]
    simp
  have hset : pySet buf ((0 : ℤ) - 1) v = some (buf.set (buf.length - 1) v) := by
    unfold pySet pyIndex
    rw [if_neg (by omega), if_pos (by constructor <;> omega)]
    have htn : (((buf.length : ℤ)) + ((0 : ℤ) - 1)).toNat = buf.length - 1 := by
      omega
    rw [Option.map_some', htn]
  show setChannelsLoop [v] 0 [0] buf = _
  unfold setChannelsLoop
  rw [htf, bindSome, hset, bindSome]
  rfl

/-- `get_channel_level` with channel index 0 reads the last channel of the
buffer through Python index `-1`. -/
theorem get_channel_level_zero {buf : List ℤ} (hbuf : buf ≠ []) :
    get_channel_level buf 0 = buf.getLast? := by
  have hlen : 1 ≤ buf.length := List.length_pos.mpr hbuf
  unfold get_channel_level pyGet pyIndex
  rw [if_neg (by omega), if_pos (by constructor <;> omega)]
  have htn : (((buf.length : ℤ)) + ((0 : ℤ) - 1)).toNat = buf.length - 1 := by
    omega
  rw [Option.some_bind, htn, List.getLast?_eq_getElem?]

/-- A frame of the transition loop over the single-channel group `[0]`
writes the interpolated value to the last channel (Python index `-1`). -/
theorem applyFrame_index_zero {orig buf : List ℤ} {v : ℤ} (frames i x : ℕ)
    (hlen : orig.length = buf.length) (hpos : 1 ≤ buf.length) :
    applyFrame orig [v] frames i x [0] buf =
      some (buf.set (buf.length - 1)
        (frameValue (orig.getD (orig.length - 1) 0) v frames i)) := by
  have horig : 1 ≤ orig.length := by omega
  have htf : targetFor [v] x = some v := by
    rw [targetFor_of_ne_nil (by simp) x]
    simp
  have hget : pyGet orig ((0 : ℤ) - 1) =
      some (orig.getD (orig.length - 1) 0) := by
    unfold pyGet pyIndex
    rw [if_neg (by omega), if_pos (by constructor <;> omega)]
    have htn : (((orig.length : ℤ)) + ((0 : ℤ) - 1)).toNat =
        orig.length - 1 := by
      omega
    rw [Option.some_bind, htn, List.getD_eq_getElem orig 0 (by omega),
      List.getElem?_eq_getElem (by omega)]
  have hset : pySet buf ((0 : ℤ) - 1)
      (frameValue (orig.getD (orig.length - 1) 0) v frames i) =
      some (buf.set (buf.length - 1)
        (frameValue (orig.getD (orig.length - 1) 0) v frames i)) := by
    unfold pySet pyIndex
    rw [if_neg (by omega), if_pos (by constructor <;> omega)]
    have htn : (((buf.length : ℤ)) + ((0 : ℤ) - 1)).toNat =
        buf.length - 1 := by
      omega
    rw [Option.map_some', htn]
  unfold applyFrame
  rw [htf, bindSome, hget, bindSome, hset, bindSome]
  rfl

/-- Running `k ≥ 1` frames of a transition on the group `[0]` ends with
the last channel holding exactly the target: every frame rewrites the
same position and the final frame writes the target itself. -/
theorem runFrames_index_zero {orig : List ℤ} {v : ℤ} {frames : ℕ}
    (hf : frames ≠ 0) :
    ∀ (k : ℕ) (buf : List ℤ), orig.length = buf.length → 1 ≤ buf.length →
    1 ≤ k → k ≤ frames →
    runFrames orig [v] [0] frames k buf =
      some (buf.set (buf.length - 1) v)
  | 0, buf, _, _, h1, _ => absurd h1 (by omega)
  | 1, buf, hlen, hpos, _, _ => by
      unfold runFrames
      rw [applyFrame_index_zero frames (frames - 0) 0 hlen hpos, bindSome,
        Nat.sub_zero, frameValue_last _ _ hf]
      rfl
  | k + 2, buf, hlen, hpos, _, hkf => by
      unfold runFrames
      rw [applyFrame_index_zero frames (frames - (k + 1)) 0 hlen hpos,
        bindSome]
      have hlen2 : orig.length = (buf.set (buf.length - 1)
          (frameValue (orig.getD (orig.length - 1) 0) v frames
            (frames - (k + 1)))).length := by
        simpa using hlen
      rw [@runFrames_index_zero orig v frames hf (k + 1) _ hlen2
        (by simpa using hpos) (by omega) (by omega)]
      rw [List.length_set, List.set_set]

/-- `set_channels_async` with channel index 0 silently fades the last
channel of the buffer and leaves it exactly at the target. -/
theorem set_channels_async_index_zero {buf : List ℤ} (v : ℤ) (D F : ℚ)
    (hbuf : buf ≠ []) :
    set_channels_async buf [0] (DMXValue.scalar v) D F =
      some (buf.set (buf.length - 1) v) := by
  have hpos : 1 ≤ buf.length := List.length_pos.mpr hbuf
  have hfp : 1 ≤ numberOfFrames D F := numberOfFrames_pos D F
  show runFrames buf [v] [0] (numberOfFrames D F) (numberOfFrames D F) buf = _
  exact @runFrames_index_zero buf v (numberOfFrames D F) (by omega)
    (numberOfFrames D F) buf rfl hpos (by omega) (le_refl _)

/-- An out-of-range channel makes every frame of the transition loop
raise `IndexError` on the read of `original_values[channel - 1]`. -/
theorem applyFrame_gt {orig buf : List ℤ} {v c : ℤ} (frames i x : ℕ)
    (hc : (orig.length : ℤ) < c) (hpos : 1 ≤ orig.length) :
    applyFrame orig [v] frames i x [c] buf = none := by
  have htf : targetFor [v] x = some v := by
    rw [targetFor_of_ne_nil (by simp) x]
    simp
  have hget : pyGet orig (c - 1) = none := by
    unfold pyGet pyIndex
    rw [if_neg (by omega), if_neg (by omega)]
    rfl
  unfold applyFrame
  rw [htf, bindSome, hget, bindNone]

/-- `set_channels_async` with a channel index above the buffer length
raises `IndexError` at its first frame: no buffer state is returned. -/
theorem set_channels_async_gt {buf : List ℤ} (v : ℤ) (D F : ℚ) {c : ℤ}
    (hbuf : buf ≠ []) (hc : (buf.length : ℤ) < c) :
    set_channels_async buf [c] (DMXValue.scalar v) D F = none := by
  have hpos : 1 ≤ buf.length := List.length_pos.mpr hbuf
  have hfp : 1 ≤ numberOfFrames D F := numberOfFrames_pos D F
  show runFrames buf [v] [c] (numberOfFrames D F) (numberOfFrames D F) buf =
    none
  cases hnf : numberOfFrames D F with
  | zero => omega
  | succ k =>
      unfold runFrames
      rw [applyFrame_gt (k + 1) (k + 1 - k) 0 hc hpos, bindNone]

/-- `get_channel_level` with a channel index above the buffer length
raises `IndexError`. -/
theorem get_channel_level_gt {buf : List ℤ} {c : ℤ} (hbuf : buf ≠ [])
    (hc : (buf.length : ℤ) < c) : get_channel_level buf c = none := by
  have hlen : 1 ≤ buf.length := List.length_pos.mpr hbuf
  unfold get_channel_level pyGet pyIndex
  rw [if_neg (by omega), if_neg (by omega)]
  rfl

/-- C6 counterexample: channel index 0 lies outside `[1, N]` for the
4-channel buffer, yet `set_channels` silently applies the write to channel
4 (the last channel) with no error, and `get_channel_level` silently reads
channel 4 — out-of-range indices are neither rejected nor reported. -/
theorem C6_counterexample :
    set_channels [5, 5, 5, 5] [0] (DMXValue.scalar 9) = some [5, 5, 5, 9] ∧
    get_channel_level [5, 5, 5, 5] 0 = some 5 := by
  decide

/-- C6 (amended): only `set_channel` (artnet.py) validates its index,
returning `False` and leaving the buffer unchanged for an index outside
`[1, N]`; `set_channels` (and its async variant) and `get_channel_level`
perform no validation: index 0 is silently applied to the last channel via
Python negative indexing, while an index greater than N raises
`IndexError` (no datagram, no write reported as a return value). -/
theorem C6_index_validation_amended (buf : List ℤ) (v c : ℤ) (D F : ℚ)
    (hbuf : buf ≠ []) :
    (¬ (1 ≤ c ∧ c ≤ (buf.length : ℤ)) → set_channel buf c v = (false, buf)) ∧
    set_channels buf [0] (DMXValue.scalar v) =
      some (buf.set (buf.length - 1) v) ∧
    set_channels_async buf [0] (DMXValue.scalar v) D F =
      some (buf.set (buf.length - 1) v) ∧
    get_channel_level buf 0 = buf.getLast? ∧
    ((buf.length : ℤ) < c → set_channels buf [c] (DMXValue.scalar v) = none) ∧
    ((buf.length : ℤ) < c →
      set_channels_async buf [c] (DMXValue.scalar v) D F = none) ∧
    ((buf.length : ℤ) < c → get_channel_level buf c = none) := by
  refine ⟨?_, set_channels_index_zero v hbuf,
    set_channels_async_index_zero v D F hbuf,
    get_channel_level_zero hbuf, ?_,
    fun hc => set_channels_async_gt v D F hbuf hc,
    fun hc => get_channel_level_gt hbuf hc⟩
  · intro hc
    unfold set_channel
    rw [if_neg (fun hcond => hc ⟨hcond.1, hcond.2.1⟩)]
  · intro hc
    have hlen : 1 ≤ buf.length := List.length_pos.mpr hbuf
    have htf : targetFor [v] 0 = some v := by
      rw [targetFor_of_ne_nil (by simp) 0]
      simp
    have hset : pySet buf (c - 1) v = none := by
      unfold pySet pyIndex
      rw [if_neg (by omega), if_neg (by omega)]
      rfl
    show setChannelsLoop [v] 0 [c] buf = none
    unfold setChannelsLoop
    rw [htf, bindSome, hset, bindNone]

theorem C6_amended_witness :
    ((¬ ((1 : ℤ) ≤ 5 ∧ (5 : ℤ) ≤ (([1, 2] : List ℤ).length : ℤ)) →
      set_channel [1, 2] 5 3 = (false, [1, 2])) ∧
    set_channels [1, 2] [0] (DMXValue.scalar 3) =
      some (([1, 2] : List ℤ).set (([1, 2] : List ℤ).length - 1) 3) ∧
    set_channels_async [1, 2] [0] (DMXValue.scalar 3) 0 40 =
      some (([1, 2] : List ℤ).set (([1, 2] : List ℤ).length - 1) 3) ∧
    get_channel_level [1, 2] 0 = ([1, 2] : List ℤ).getLast? ∧
    ((([1, 2] : List ℤ).length : ℤ) < 5 →
      set_channels [1, 2] [5] (DMXValue.scalar 3) = none) ∧
    ((([1, 2] : List ℤ).length : ℤ) < 5 →
      set_channels_async [1, 2] [5] (DMXValue.scalar 3) 0 40 = none) ∧
    ((([1, 2] : List ℤ).length : ℤ) < 5 →
      get_channel_level [1, 2] 5 = none)) :=
  C6_index_validation_amended [1, 2] 3 5 0 40 (by decide)

/-- C10: with a non-empty buffer, `get_channel_level 0` does not fail and
returns the last channel's value (Python index `-1`), and `set_channels`
with channel index 0 writes the last channel instead of reporting an
out-of-range error. -/
theorem C10_index_zero_maps_to_last (buf : List ℤ) (v : ℤ) (hbuf : buf ≠ []) :
    get_channel_level buf 0 = buf.getLast? ∧
    set_channels buf [0] (DMXValue.scalar v) =
      some (buf.set (buf.length - 1) v) :=
  ⟨get_channel_level_zero hbuf, set_channels_index_zero v hbuf⟩

theorem C10_witness :
    get_channel_level [4, 5, 6] 0 = ([4, 5, 6] : List ℤ).getLast? ∧
    set_channels [4, 5, 6] [0] (DMXValue.scalar 9) =
      some (([4, 5, 6] : List ℤ).set (([4, 5, 6] : List ℤ).length - 1) 9) :=
  C10_index_zero_maps_to_last [4, 5, 6] 9 (by decide)

/-- C7: from a gateway constructed with a default level in [0, 255], any
successful sequence of `set_channels` / `set_channels_async` operations
whose target values lie in [0, 255] keeps every reached buffer state —
including every intermediate transition frame — at the original length
with every entry in [0, 255]. -/
theorem C7_buffer_invariant (d : ℤ) (n : ℕ) (ops : List DMXOp)
    (trs : List (List ℤ))
    (hd0 : 0 ≤ d) (hd1 : d ≤ 255)
    (hops : ∀ op ∈ ops, ∀ v ∈ opValues op, 0 ≤ v ∧ v ≤ 255)
    (hrun : runOps ops (initChannels d n) = some trs) :
    ∀ b ∈ trs, b.length = (initChannels d n).length ∧
      ∀ v ∈ b, 0 ≤ v ∧ v ≤ 255 := by
  have hinv0 : BufInv (evenChannels n) (initChannels d n) := by
    constructor
    · rw [initChannels, List.length_replicate]
    · intro v hv
      rw [List.eq_of_mem_replicate hv]
      exact ⟨hd0, hd1⟩
  have h := runOps_inv hops hrun hinv0
  intro b hb
  obtain ⟨hl, hv⟩ := h b hb
  refine ⟨?_, hv⟩
  rw [hl, initChannels, List.length_replicate]

theorem C7_witness :
    [(3 : ℤ), 7].length = (initChannels 7 2).length ∧
      0 ≤ (3 : ℤ) ∧ (3 : ℤ) ≤ 255 :=
  have h := C7_buffer_invariant 7 2 [DMXOp.set [1] (DMXValue.scalar 3)]
    [[3, 7]] (by decide) (by decide) (by decide) (by decide) [3, 7]
    (by decide)
  ⟨h.1, h.2 3 (by decide)⟩

/-- C8: when a newer command for the same group identity key is issued (so
that the stored command id no longer matches the one captured at entry,
first observed at the check after frame `j`), the running transition
executes exactly frames `1, …, j` and exits without executing any of its
remaining frames; the buffer is left exactly as frame `j` wrote it (no
rollback). -/
theorem C8_supersession_stops_early
    (orig va chs buf : List ℤ) (frames : ℕ) (ids : ℕ → ℕ) (myId j : ℕ)
    (hmid : ∀ i, 1 ≤ i → i < j → ids i = myId)
    (hj : ids j ≠ myId) (hj1 : 1 ≤ j) (hjf : j ≤ frames) :
    runFramesSup orig va chs frames ids myId frames buf =
      runSteps orig va chs frames 1 j buf := by
  have h := @runFramesSup_eq_runSteps orig va chs frames ids myId j
    hmid hj hjf frames buf (le_refl _) (by omega)
  simpa using h

theorem C8_witness :
    runFramesSup [0, 0] [10] [1] 3 (fun i => if i < 2 then 5 else 6) 5 3
        [0, 0] =
      runSteps [0, 0] [10] [1] 3 1 2 [0, 0] :=
  C8_supersession_stops_early [0, 0] [10] [1] [0, 0] 3
    (fun i => if i < 2 then 5 else 6) 5 2
    (fun i h1 h2 => by
      have he : i = 1 := by omega
      subst he
      rfl)
    (by decide) (by decide) (by decide)

/-- C9: `send()` never mutates the stored header template or the channel
buffer: each protocol's datagram is the (copied) template followed by the
payload bytes; Art-Net and KiNet leave the gateway state entirely
unchanged, and the only session field sACN's send mutates is the sequence
counter. -/
theorem C9_send_leaves_state_unchanged
    (ga ga2 : ArtNetGateway) (gk gk2 : KiNetGateway) (gs gs2 : SACNGateway)
    (pa pk ps : List ℕ) :
    (ga.send = some (pa, ga2) →
      ga2 = ga ∧ pa = ga.base_packet ++ ga.channels.map Int.toNat) ∧
    (gk.send = some (pk, gk2) →
      gk2 = gk ∧ pk = gk.base_packet ++ gk.channels.map Int.toNat) ∧
    (gs.send = some (ps, gs2) →
      gs2.base_packet = gs.base_packet ∧ gs2.channels = gs.channels ∧
      gs2.sequence = (if gs.sequence + 1 = 200 then 1 else gs.sequence + 1) ∧
      ps = gs.base_packet.take 111 ++ [gs.sequence] ++
        gs.base_packet.drop 112 ++ gs.channels.map Int.toNat) := by
  refine ⟨?_, ?_, ?_⟩
  · intro h
    unfold ArtNetGateway.send byteList at h
    by_cases hch : ∀ v ∈ ga.channels, 0 ≤ v ∧ v ≤ 255
    · rw [if_pos hch, bindSome] at h
      have h2 := Option.some.inj h
      have hg : ga2 = ga := (congrArg Prod.snd h2).symm
      have hp : pa = ga.base_packet ++ ga.channels.map Int.toNat :=
        (congrArg Prod.fst h2).symm
      exact ⟨hg, hp⟩
    · rw [if_neg hch, bindNone] at h
      cases h
  · intro h
    unfold KiNetGateway.send pack512B at h
    by_cases hch : gk.channels.length = 512 ∧ ∀ v ∈ gk.channels,
        0 ≤ v ∧ v ≤ 255
    · rw [if_pos hch, bindSome] at h
      have h2 := Option.some.inj h
      have hg : gk2 = gk := (congrArg Prod.snd h2).symm
      have hp : pk = gk.base_packet ++ gk.channels.map Int.toNat :=
        (congrArg Prod.fst h2).symm
      exact ⟨hg, hp⟩
    · rw [if_neg hch, bindNone] at h
      cases h
  · intro h
    unfold SACNGateway.send packB byteList at h
    by_cases hseq : gs.sequence ≤ 255
    · rw [if_pos hseq, bindSome] at h
      by_cases hch : ∀ v ∈ gs.channels, 0 ≤ v ∧ v ≤ 255
      · rw [if_pos hch, bindSome] at h
        have h2 := Option.some.inj h
        have hg : gs2 = { gs with sequence :=
            if gs.sequence + 1 = 200 then 1 else gs.sequence + 1 } :=
          (congrArg Prod.snd h2).symm
        have hp : ps = gs.base_packet.take 111 ++ [gs.sequence] ++
            gs.base_packet.drop 112 ++ gs.channels.map Int.toNat :=
          (congrArg Prod.fst h2).symm
        refine ⟨?_, ?_, ?_, hp⟩ <;> rw [hg]
      · rw [if_neg hch, bindNone] at h
        cases h
    · rw [if_neg hseq, bindNone] at h
      cases h

theorem C9_witness :
    ((ArtNetGateway.init 0 2 7 = ArtNetGateway.init 0 2 7 ∧
      (ArtNetGateway.init 0 2 7).base_packet ++ [7, 7] =
        (ArtNetGateway.init 0 2 7).base_packet ++
          (ArtNetGateway.init 0 2 7).channels.map Int.toNat)) ∧
    ((KiNetGateway.init 0 512 7 = KiNetGateway.init 0 512 7 ∧
      (KiNetGateway.init 0 512 7).base_packet ++ List.replicate 512 7 =
        (KiNetGateway.init 0 512 7).base_packet ++
          (KiNetGateway.init 0 512 7).channels.map Int.toNat)) ∧
    (({ SACNGateway.init 1 2 7 with sequence := 1 } :
        SACNGateway).base_packet = (SACNGateway.init 1 2 7).base_packet ∧
      ({ SACNGateway.init 1 2 7 with sequence := 1 } :
        SACNGateway).channels = (SACNGateway.init 1 2 7).channels ∧
      ({ SACNGateway.init 1 2 7 with sequence := 1 } :
        SACNGateway).sequence =
        (if (SACNGateway.init 1 2 7).sequence + 1 = 200 then 1
          else (SACNGateway.init 1 2 7).sequence + 1) ∧
      (SACNGateway.init 1 2 7).base_packet.take 111 ++
          [(SACNGateway.init 1 2 7).sequence] ++
          (SACNGateway.init 1 2 7).base_packet.drop 112 ++ [7, 7] =
        (SACNGateway.init 1 2 7).base_packet.take 111 ++
          [(SACNGateway.init 1 2 7).sequence] ++
          (SACNGateway.init 1 2 7).base_packet.drop 112 ++
          (SACNGateway.init 1 2 7).channels.map Int.toNat) :=
  ⟨(C9_send_leaves_state_unchanged (ArtNetGateway.init 0 2 7)
      (ArtNetGateway.init 0 2 7) (KiNetGateway.init 0 512 7)
      (KiNetGateway.init 0 512 7) (SACNGateway.init 1 2 7)
      { SACNGateway.init 1 2 7 with sequence := 1 }
      ((ArtNetGateway.init 0 2 7).base_packet ++ [7, 7])
      ((KiNetGateway.init 0 512 7).base_packet ++ List.replicate 512 7)
      ((SACNGateway.init 1 2 7).base_packet.take 111 ++
        [(SACNGateway.init 1 2 7).sequence] ++
        (SACNGateway.init 1 2 7).base_packet.drop 112 ++ [7, 7])).1
      (by decide),
   (C9_send_leaves_state_unchanged (ArtNetGateway.init 0 2 7)
      (ArtNetGateway.init 0 2 7) (KiNetGateway.init 0 512 7)
      (KiNetGateway.init 0 512 7) (SACNGateway.init 1 2 7)
      { SACNGateway.init 1 2 7 with sequence := 1 }
      ((ArtNetGateway.init 0 2 7).base_packet ++ [7, 7])
      ((KiNetGateway.init 0 512 7).base_packet ++ List.replicate 512 7)
      ((SACNGateway.init 1 2 7).base_packet.take 111 ++
        [(SACNGateway.init 1 2 7).sequence] ++
        (SACNGateway.init 1 2 7).base_packet.drop 112 ++ [7, 7])).2.1
      (by decide),
   (C9_send_leaves_state_unchanged (ArtNetGateway.init 0 2 7)
      (ArtNetGateway.init 0 2 7) (KiNetGateway.init 0 512 7)
      (KiNetGateway.init 0 512 7) (SACNGateway.init 1 2 7)
      { SACNGateway.init 1 2 7 with sequence := 1 }
      ((ArtNetGateway.init 0 2 7).base_packet ++ [7, 7])
      ((KiNetGateway.init 0 512 7).base_packet ++ List.replicate 512 7)
      ((SACNGateway.init 1 2 7).base_packet.take 111 ++
        [(SACNGateway.init 1 2 7).sequence] ++
        (SACNGateway.init 1 2 7).base_packet.drop 112 ++ [7, 7])).2.2
      (by decide)⟩

end DMX
